import Mathlib

/-!
A verification development for the slot-machine core of this repository.

The TypeScript sources are shallowly embedded: JavaScript numbers are
modelled as rationals (`ℚ`), arrays as `List`s, and the lazy generators of
the win detector as eagerly collected lists in the same enumeration order.
`Math.random()` is modelled by an explicit stream `rand : Nat → ℚ` of draws
in `[0, 1)`, consumed one value per sampler call, so every function is a
pure, executable definition.
-/

namespace SlotMac

/-- Glyph (symbol) identities, from `types/glyphs.ts` (`enum GlyphType`). -/
inductive GlyphType where
  | pineapple
  | grape
  | strawberry
  | watermelon
  | orange
  | lemon
  | cherry
deriving DecidableEq, Repr

/-- A symbol definition, from `types/glyphs.ts` (`interface Glyph`).
The display-only `emoji` field is omitted (presentation only). -/
structure Glyph where
  type : GlyphType
  name : String
  payoutValue : ℚ
  rarityWeight : ℚ
deriving DecidableEq, Repr

/-- One placed occurrence of a glyph at a board cell,
from `types/glyphs.ts` (`interface GlyphInstance`). -/
structure GlyphInstance where
  glyph : Glyph
  row : Nat
  column : Nat
  isWinning : Bool
  winningMultiplier : ℚ
deriving DecidableEq, Repr

/-- Function `createGlyphInstance` from `core/glyphs.ts`: fresh instances start
with `isWinning = false` and `winningMultiplier = 1`. -/
def createGlyphInstance (glyph : Glyph) (row column : Nat) : GlyphInstance :=
  { glyph := glyph, row := row, column := column,
    isWinning := false, winningMultiplier := 1 }

/-! ## The glyph catalogs

`core/glyphs.ts` defines the static record `GLYPHS` (payouts 21 … 1,
weights 1 … 8); `GLYPHS_ARRAY = Object.values(GLYPHS)` lists its entries
in declaration order.  The reel subsystem's module defines a rebalanced
`BASE_GLYPHS` table (payouts 15 … 1, weights 13 … 19), a static clone
`GLYPHS_ARRAY`, and a `_GlyphManager` holding a second, mutable clone. -/

def pineappleGlyph : Glyph := ⟨.pineapple, "pineapple", 21, 1⟩
def grapeGlyph : Glyph := ⟨.grape, "grape", 13, 2⟩
def strawberryGlyph : Glyph := ⟨.strawberry, "strawberry", 8, 5⟩
def watermelonGlyph : Glyph := ⟨.watermelon, "Watermelon", 5, 7⟩
def orangeGlyph : Glyph := ⟨.orange, "Orange", 3, 7⟩
def lemonGlyph : Glyph := ⟨.lemon, "Lemon", 2, 8⟩
def cherryGlyph : Glyph := ⟨.cherry, "Cherry", 1, 8⟩

/-- The `GLYPHS_ARRAY` of `core/glyphs.ts`, in `Object.values` order. -/
def GLYPHS_ARRAY : List Glyph :=
  [pineappleGlyph, grapeGlyph, strawberryGlyph, watermelonGlyph,
   orangeGlyph, lemonGlyph, cherryGlyph]

def pineappleBase : Glyph := ⟨.pineapple, "pineapple", 15, 13⟩
def grapeBase : Glyph := ⟨.grape, "grape", 10, 14⟩
def strawberryBase : Glyph := ⟨.strawberry, "strawberry", 8, 15⟩
def watermelonBase : Glyph := ⟨.watermelon, "Watermelon", 5, 16⟩
def orangeBase : Glyph := ⟨.orange, "Orange", 3, 17⟩
def lemonBase : Glyph := ⟨.lemon, "Lemon", 2, 18⟩
def cherryBase : Glyph := ⟨.cherry, "Cherry", 1, 19⟩

/-- The static `GLYPHS_ARRAY` of the reel subsystem's glyph module
(`Object.values(structuredClone(BASE_GLYPHS))`), in declaration order. -/
def BASE_GLYPHS_ARRAY : List Glyph :=
  [pineappleBase, grapeBase, strawberryBase, watermelonBase,
   orangeBase, lemonBase, cherryBase]

/-! ## The weighted sampler -/

/-- Total rarity weight of a catalog
(`reduce((sum, glyph) => sum + glyph.rarityWeight, 0)`). -/
def totalWeightOf (catalog : List Glyph) : ℚ :=
  (catalog.map fun g => g.rarityWeight).sum

/-- The accumulating walk of `getRandomGlyph`: starting from running sum
`acc`, return the first glyph whose running sum satisfies
`randomValue <= weightSum`, or `none` when the walk falls off the end. -/
def pickGlyph (draw : ℚ) : ℚ → List Glyph → Option Glyph
  | _, [] => none
  | acc, g :: rest =>
      if draw ≤ acc + g.rarityWeight then some g
      else pickGlyph draw (acc + g.rarityWeight) rest

/-- The body of `getRandomGlyph` applied to a drawn value: walk `catalog`
accumulating weights; if no running sum reaches the draw, fall back to the
catalog's last element (`GLYPHS_ARRAY[GLYPHS_ARRAY.length - 1]`). -/
def getRandomGlyphWalk (catalog : List Glyph) (draw : ℚ) : Option Glyph :=
  match pickGlyph draw 0 catalog with
  | some g => some g
  | none => catalog.getLast?

/-- Function `getRandomGlyph` from `core/glyphs.ts`, given one `Math.random()`
output `r`: the draw is `r * totalWeight` and both the total weight and
the walk range over `GLYPHS_ARRAY`.  `GLYPHS_ARRAY` is nonempty, so the
`getD` default is never reached (the source fallback is its last entry). -/
def getRandomGlyph (r : ℚ) : Glyph :=
  (getRandomGlyphWalk GLYPHS_ARRAY (r * totalWeightOf GLYPHS_ARRAY)).getD cherryGlyph

/-- Method `_GlyphManager.getRandomGlyph` from the reel subsystem's glyph module:
the total weight is computed from the manager's mutable catalog
(`this.getTotalWeight()`), but the accumulating walk and the fallback
iterate the static `GLYPHS_ARRAY` clone of `BASE_GLYPHS`. -/
def mgrGetRandomGlyph (mgrCatalog : List Glyph) (r : ℚ) : Option Glyph :=
  getRandomGlyphWalk BASE_GLYPHS_ARRAY (r * totalWeightOf mgrCatalog)

/-- Modelled from the spec: “walk the catalog accumulating a running sum;
return the first item where the running sum is ≥ the draw”, with the
running sum taken over the same catalog entries as the total weight.
Used only to compare the implementation against the spec's words. -/
def specFirstGlyph (catalog : List Glyph) (draw : ℚ) : Option Glyph :=
  match (List.range catalog.length).find?
      (fun i => decide (draw ≤ totalWeightOf (catalog.take (i + 1)))) with
  | some i => catalog.get? i
  | none => none

/-! ## The pattern catalog, from the winning-patterns module -/

/-- The `enum WinCombinationType` from `types/winning-combinations.ts`. -/
inductive WinCombinationType where
  | threeAcross
  | fourAcross
  | fiveAcross
  | threeDown
  | threeDiagonal
  | fiveMirroredDiagonal
  | nineSquare
  | fifteenAllMatch
deriving DecidableEq, Repr

/-- A winning pattern.  In the source, `checkMatch` is the closure
`(board) => checkSymbolsMatch(board, mask)`; here the mask matrix is kept
as data and the detector applies `checkSymbolsMatch` to it directly. -/
structure WinningPattern where
  type : WinCombinationType
  group : String
  name : String
  multiplier : ℚ
  mask : List (List Nat)
deriving DecidableEq, Repr

/-- The `WINNING_PATTERNS` list: the fixed pattern list of the winning-patterns
module, in declaration order, with its base multipliers. -/
def WINNING_PATTERNS : List WinningPattern :=
  [⟨.threeAcross, "across", "3 Across", 1, [[1, 1, 1]]⟩,
   ⟨.fourAcross, "across", "4 Across", 2, [[1, 1, 1, 1]]⟩,
   ⟨.fiveAcross, "across", "5 Across", 3, [[1, 1, 1, 1, 1]]⟩,
   ⟨.threeDown, "down", "3 Down", 1, [[1], [1], [1]]⟩,
   ⟨.threeDiagonal, "diagonal", "3 Forward Diagonal", 1,
     [[1, 0, 0], [0, 1, 0], [0, 0, 1]]⟩,
   ⟨.threeDiagonal, "diagonal", "3 Backward Diagonal", 1,
     [[0, 0, 1], [0, 1, 0], [1, 0, 0]]⟩,
   ⟨.fiveMirroredDiagonal, "diagonal", "Star Diagonal", 3,
     [[1, 0, 1], [0, 1, 0], [1, 0, 1]]⟩,
   ⟨.nineSquare, "square", "Square", 5,
     [[1, 1, 1], [1, 1, 1], [1, 1, 1]]⟩,
   ⟨.fifteenAllMatch, "jackpot", "Jackpot", 10,
     [[1, 1, 1, 1, 1], [1, 1, 1, 1, 1], [1, 1, 1, 1, 1]]⟩]

/-! ## The win detector -/

/-- The window with origin `(i, j)` and size `x × y`:
`array.slice(i, i + x).map(row => row.slice(j, j + y))`. -/
def window (arr : List (List α)) (x y i j : Nat) : List (List α) :=
  ((arr.drop i).take x).map fun row => (row.drop j).take y

/-- The window origins enumerated by `sliceArray`'s nested loops:
`i < array.length - x + 1`, `j < array[i].length - y + 1` (a negative
JavaScript bound yields no iterations; truncated `Nat` subtraction in
`length + 1 - x` models exactly that). -/
def windowOrigins (arr : List (List α)) (x y : Nat) : List (Nat × Nat) :=
  (List.range (arr.length + 1 - x)).flatMap fun i =>
    (List.range ((arr.getD i []).length + 1 - y)).map fun j => (i, j)

/-- Function `sliceArray` from the winning-patterns module: every `x × y` window of
`array`, eagerly collected in generator order. -/
def sliceArray (arr : List (List α)) (x y : Nat) : List (List (List α)) :=
  (windowOrigins arr x y).map fun p => window arr x y p.1 p.2

/-- The masked cells of a window, with their coordinates inside the
window: the row-major scan of `checkSymbolsMatch` keeps exactly the cells
where `patternMatrix[rowIndex][colIndex] === 1`. -/
def maskedCellsPos (mask : List (List Nat)) (w : List (List GlyphInstance)) :
    List ((Nat × Nat) × GlyphInstance) :=
  w.enum.flatMap fun rrow =>
    rrow.2.enum.flatMap fun cs =>
      if (mask.getD rrow.1 []).getD cs.1 0 = 1 then [((rrow.1, cs.1), cs.2)] else []

/-- The matched symbols a window contributes, in row-major scan order. -/
def maskedCells (mask : List (List Nat)) (w : List (List GlyphInstance)) :
    List GlyphInstance :=
  (maskedCellsPos mask w).map fun pc => pc.2

/-- The per-window test of `checkSymbolsMatch`: the first masked cell's glyph
type is the reference; the window matches when every other masked cell has
the same glyph type (a window with no masked cell matches vacuously, as in
the source where `firstSymbol` stays `null` and `isMatch` stays `true`). -/
def windowIsMatch (mask : List (List Nat)) (w : List (List GlyphInstance)) : Bool :=
  match maskedCells mask w with
  | [] => true
  | s :: rest => rest.all fun t => decide (t.glyph.type = s.glyph.type)

/-- Function `checkSymbolsMatch` from the winning-patterns module: for each window
of the mask's dimensions, yield the masked cells when they all share one
glyph type. -/
def checkSymbolsMatch (board : List (List GlyphInstance))
    (patternMatrix : List (List Nat)) : List (List GlyphInstance) :=
  (sliceArray board patternMatrix.length (patternMatrix.getD 0 []).length).filterMap
    fun w => if windowIsMatch patternMatrix w then some (maskedCells patternMatrix w) else none

/-- The origins of the windows that match, in enumeration order.  Matching
reads only `glyph.type`, which the detector's in-place marking never
changes, so enumerating matches against the pre-detection board is exact
even though the source interleaves marking with the lazy enumeration. -/
def matchedOrigins (board : List (List GlyphInstance))
    (mask : List (List Nat)) : List (Nat × Nat) :=
  (windowOrigins board mask.length (mask.getD 0 []).length).filter fun p =>
    windowIsMatch mask (window board mask.length (mask.getD 0 []).length p.1 p.2)

/-- One detected combination: the matched pattern with its matched
symbols, as pushed by `detectWinningCombinations`. -/
structure WinningCombination where
  pattern : WinningPattern
  symbols : List GlyphInstance
deriving DecidableEq, Repr

/-- The combination list `detectWinningCombinations` returns: patterns in
catalog order, windows in enumeration order. -/
def detectWinningCombinations (patterns : List WinningPattern)
    (board : List (List GlyphInstance)) : List WinningCombination :=
  patterns.flatMap fun p =>
    (checkSymbolsMatch board p.mask).map fun syms => ⟨p, syms⟩

/-- The in-place marking of one matched symbol:
`symbol.isWinning = true; if (multiplier > symbol.winningMultiplier)
symbol.winningMultiplier = multiplier`. -/
def markWin (s : GlyphInstance) (m : ℚ) : GlyphInstance :=
  { s with isWinning := true,
           winningMultiplier :=
             if m > s.winningMultiplier then m else s.winningMultiplier }

/-- The board cell at a position (out-of-range positions return an inert
default, never reached by in-bounds window enumeration). -/
def cellAt (board : List (List GlyphInstance)) (q : Nat × Nat) : GlyphInstance :=
  (board.getD q.1 []).getD q.2 (createGlyphInstance cherryGlyph 0 0)

/-- All marking operations `detectWinningCombinations` performs, in source
order: for each pattern, for each matched window, for each masked cell of
that window (row-major), the absolute board position and the pattern's
multiplier. -/
def allUpdates (patterns : List WinningPattern)
    (board : List (List GlyphInstance)) : List ((Nat × Nat) × ℚ) :=
  patterns.flatMap fun p =>
    (matchedOrigins board p.mask).flatMap fun o =>
      (maskedCellsPos p.mask
          (window board p.mask.length (p.mask.getD 0 []).length o.1 o.2)).map
        fun pc => ((o.1 + pc.1.1, o.2 + pc.1.2), p.multiplier)

/-- Fold the markings over the board, viewed positionally: each update
marks one cell and leaves every other cell unchanged. -/
def applyUpdates (L : List ((Nat × Nat) × ℚ))
    (g : Nat × Nat → GlyphInstance) : Nat × Nat → GlyphInstance :=
  L.foldl (fun g u => fun q => if u.1 = q then markWin (g q) u.2 else g q) g

/-- The cell states after `detectWinningCombinations` has run: the
detector's only side effect is the sequence of `markWin` markings. -/
def detectFinalCells (patterns : List WinningPattern)
    (board : List (List GlyphInstance)) : Nat × Nat → GlyphInstance :=
  applyUpdates (allUpdates patterns board) (cellAt board)

/-- A detected win, from `types/winning-combinations.ts` (`interface Win`). -/
structure Win where
  symbols : List GlyphInstance
  combinationType : WinCombinationType
  baseValue : ℚ
  multiplier : ℚ
  totalValue : ℚ
deriving DecidableEq, Repr

/-- Function `detectWins` from the winning-patterns module:
`symbolValue = Math.floor(sum of payoutValue / count)`;
`baseValue = symbolValue`; `totalValue = symbolValue * multiplier`. -/
def detectWins (patterns : List WinningPattern)
    (board : List (List GlyphInstance)) : List Win :=
  (detectWinningCombinations patterns board).map fun c =>
    let symbolValue : ℚ :=
      (Rat.floor ((c.symbols.map fun s => s.glyph.payoutValue).sum /
        (c.symbols.length : ℚ)) : ℤ)
    { symbols := c.symbols,
      combinationType := c.pattern.type,
      baseValue := symbolValue,
      multiplier := c.pattern.multiplier,
      totalValue := symbolValue * c.pattern.multiplier }

/-- Function `calculatePayout` from the winning-patterns module:
`wins.reduce((acc, win) => acc + win.totalValue, 0) * currentMultiplier`. -/
def calculatePayout (wins : List Win) (currentMultiplier : ℚ) : ℚ :=
  (wins.map fun w => w.totalValue).sum * currentMultiplier

/-! ## The board generator, from `core/board.ts`

`genBoard` fills the board row-major, one `getRandomGlyph()` call per
cell; cell `(row, col)` of the attempt starting at stream position `k`
consumes draw `rand (k + row * cols + col)`. -/

/-- Function `genBoard` from `core/board.ts`. -/
def genBoard (rows cols : Nat) (rand : Nat → ℚ) (k : Nat) :
    List (List GlyphInstance) :=
  (List.range rows).map fun row =>
    (List.range cols).map fun col =>
      createGlyphInstance (getRandomGlyph (rand (k + row * cols + col))) row col

/-- Constant `MAX_RETRIES` from `core/board.ts`. -/
def MAX_RETRIES : Nat := 1000

/-- The lowest multiplier over the detected wins:
`wins.reduce((min, win) => Math.min(min, win.multiplier), Infinity)`,
with `Infinity` modelled as `⊤` in `WithTop ℚ`. -/
def lowestMultiplier (wins : List Win) : WithTop ℚ :=
  wins.foldl (fun m w => min m (w.multiplier : WithTop ℚ)) ⊤

/-- The acceptance test of `generateRandomBoard`:
`lowestMultiplier >= minMultiplier && wins.length >= minWinCount`
(in JavaScript, `Infinity >= minMultiplier` always holds). -/
def boardAccepted (patterns : List WinningPattern) (minMultiplier : ℚ)
    (minWinCount : Nat) (board : List (List GlyphInstance)) : Bool :=
  let wins := detectWins patterns board
  decide ((minMultiplier : WithTop ℚ) ≤ lowestMultiplier wins) &&
    decide (minWinCount ≤ wins.length)

/-- The retry loop of `generateRandomBoard`: with `fuel` attempts left and
the random stream at position `k`, draw a board, accept it if the test
holds, otherwise retry; when the budget is exhausted the source runs
`return genBoard(rows, cols)` — one further fresh board. -/
def generateRandomBoardAux (patterns : List WinningPattern) (rows cols : Nat)
    (minMultiplier : ℚ) (minWinCount : Nat) (rand : Nat → ℚ) :
    Nat → Nat → List (List GlyphInstance)
  | k, 0 => genBoard rows cols rand k
  | k, fuel + 1 =>
      let board := genBoard rows cols rand k
      if boardAccepted patterns minMultiplier minWinCount board then board
      else
        generateRandomBoardAux patterns rows cols minMultiplier minWinCount rand
          (k + rows * cols) fuel

/-- Function `generateRandomBoard` from `core/board.ts`, parametrised by the
pattern list the detector consults (the manager holds `WINNING_PATTERNS`
until modifiers mutate it) and by the random stream. -/
def generateRandomBoard (patterns : List WinningPattern) (rows cols : Nat)
    (minMultiplier : ℚ) (minWinCount : Nat) (rand : Nat → ℚ) :
    List (List GlyphInstance) :=
  generateRandomBoardAux patterns rows cols minMultiplier minWinCount rand 0 MAX_RETRIES

/-! ## The spin state machine, from `state/game-state-manager.ts`

Event publication and the best-effort `localStorage` writes of `setState`
are presentation-side effects with no bearing on the state values and are
not modelled.  The `setTimeout` of the celebration phase is modelled by
returning the scheduled delay and applying its callback explicitly. -/

/-- The `enum GameStateType` from `types/game-state.ts`. -/
inductive GameStateType where
  | menu
  | idle
  | spinning
  | evaluating
  | celebrating
  | gameover
deriving DecidableEq, Repr

/-- Structure `PlayerStats` from `types/game-state.ts`. -/
structure PlayerStats where
  coins : ℚ
  totalSpins : Nat
  totalWins : Nat
  largestWin : ℚ
deriving DecidableEq, Repr

/-- Structure `SpinResult` from `types/game-state.ts`. -/
structure SpinResult where
  boardSymbols : List (List GlyphInstance)
  wins : List Win
  totalPayout : ℚ
  isJackpot : Bool
deriving DecidableEq, Repr

/-- Structure `GameState` from `types/game-state.ts`. -/
structure GameState where
  currentState : GameStateType
  playerStats : PlayerStats
  currentMultiplier : ℚ
  currentSpinResult : Option SpinResult
  canSpin : Bool
  recentSpins : List SpinResult
deriving DecidableEq, Repr

/-- Constant `DEFAULT_GAME_STATE` from `state/game-state-manager.ts`. -/
def DEFAULT_GAME_STATE : GameState :=
  { currentState := .idle,
    playerStats := { coins := 100, totalSpins := 0, totalWins := 0, largestWin := 0 },
    currentMultiplier := 1,
    currentSpinResult := none,
    canSpin := true,
    recentSpins := [] }

/-- Constant `MAX_RECENT_SPINS` from `state/game-state-manager.ts`. -/
def MAX_RECENT_SPINS : Nat := 10

/-- Method `addCoins`: ignores non-positive amounts, otherwise credits `amount`. -/
def addCoins (s : GameState) (amount : ℚ) : GameState :=
  if amount ≤ 0 then s
  else
    { s with playerStats := { s.playerStats with coins := s.playerStats.coins + amount } }

/-- Method `deductCoins`: returns `true` immediately on non-positive amounts,
`false` (no change) when the balance is short, otherwise debits. -/
def deductCoins (s : GameState) (amount : ℚ) : GameState × Bool :=
  if amount ≤ 0 then (s, true)
  else if s.playerStats.coins < amount then (s, false)
  else
    ({ s with playerStats := { s.playerStats with coins := s.playerStats.coins - amount } },
     true)

/-- Method `startSpin` from `state/game-state-manager.ts`.  The spin cost is the
hardcoded literal `1`: the guard is `coins < 1` and the call is
`deductCoins(1)`.  On success the deduction happens first, then the stats
spread adds one to `totalSpins`, then one `setState` moves to `SPINNING`
with `canSpin = false` and a cleared `currentSpinResult`. -/
def startSpin (s : GameState) : GameState :=
  if s.canSpin = false ∨ s.currentState ≠ .idle then s
  else if s.playerStats.coins < 1 then s
  else
    let s1 := (deductCoins s 1).1
    { s1 with
      currentState := .spinning,
      playerStats := { s1.playerStats with totalSpins := s1.playerStats.totalSpins + 1 },
      canSpin := false,
      currentSpinResult := none }

/-- What `endSpin` leaves behind: the synchronous post-state, the sequence
of `currentState` values after each `setState` call it made (in order),
and the delay of the deferred return-to-idle callback, when scheduled. -/
structure EndSpinOutcome where
  state : GameState
  stateTrace : List GameStateType
  celebrationDelay : Option Nat
deriving DecidableEq, Repr

/-- The deferred callback `endSpin` schedules after a win:
`setState({currentState: IDLE, canSpin: true})`. -/
def celebrationCallback (s : GameState) : GameState :=
  { s with currentState := .idle, canSpin := true }

/-- Method `endSpin` from `state/game-state-manager.ts`: no-op outside
`SPINNING`; records the result and moves to `EVALUATING`; with wins it
credits the payout via `addCoins`, bumps `totalWins` and `largestWin`,
moves to `CELEBRATING`, prepends the result to the bounded recent-spins
list and schedules the 3000 ms return to idle; without wins it returns to
`IDLE` immediately.  (`addCoins` calls `setState` only for positive
amounts, hence the conditional trace entry.) -/
def endSpin (s : GameState) (result : SpinResult) : EndSpinOutcome :=
  if s.currentState ≠ .spinning then ⟨s, [], none⟩
  else
    let s1 := { s with currentState := .evaluating, currentSpinResult := some result }
    if 0 < result.wins.length then
      let s2 := addCoins s1 result.totalPayout
      let s3 :=
        { s2 with
          playerStats :=
            { s2.playerStats with
              totalWins := s2.playerStats.totalWins + 1,
              largestWin := max s2.playerStats.largestWin result.totalPayout },
          currentState := .celebrating }
      let s4 := { s3 with recentSpins := (result :: s3.recentSpins).take MAX_RECENT_SPINS }
      ⟨s4,
       [GameStateType.evaluating] ++
         (if 0 < result.totalPayout then [GameStateType.evaluating] else []) ++
         [GameStateType.celebrating, GameStateType.celebrating],
       some 3000⟩
    else
      let s2 := { s1 with currentState := .idle, canSpin := true }
      let s3 := { s2 with recentSpins := (result :: s2.recentSpins).take MAX_RECENT_SPINS }
      ⟨s3, [GameStateType.evaluating, GameStateType.idle, GameStateType.idle], none⟩

/-- Method `resetState`: restore `DEFAULT_GAME_STATE` (the `localStorage` removal
is not modelled). -/
def resetState : GameState := DEFAULT_GAME_STATE

/-! ## Lemmas about the win detector -/

/-- Every win list produced by `checkSymbolsMatch` is a window's masked
cells whose window passed the match test. -/
lemma checkSymbolsMatch_mem {board : List (List GlyphInstance)}
    {mask : List (List Nat)} {l : List GlyphInstance}
    (hl : l ∈ checkSymbolsMatch board mask) :
    ∃ w ∈ sliceArray board mask.length ((mask.getD 0 []).length),
      windowIsMatch mask w = true ∧ l = maskedCells mask w := by
  rcases List.mem_filterMap.1 hl with ⟨w, hw, hsome⟩
  by_cases h : windowIsMatch mask w = true
  · refine ⟨w, hw, h, ?_⟩
    simp only [h, if_true] at hsome
    exact (Option.some.inj hsome).symm
  · simp only [Bool.not_eq_true] at h
    simp [h] at hsome

/-- A matched window's cells all share the reference glyph type of the
first masked cell. -/
lemma checkSymbolsMatch_same_type {board : List (List GlyphInstance)}
    {mask : List (List Nat)} {l : List GlyphInstance}
    (hl : l ∈ checkSymbolsMatch board mask) :
    ∀ s ∈ l, ∀ t ∈ l, s.glyph.type = t.glyph.type := by
  rcases checkSymbolsMatch_mem hl with ⟨w, -, hmatch, rfl⟩
  unfold windowIsMatch at hmatch
  rcases hcells : maskedCells mask w with - | ⟨s0, rest⟩
  · intro s hs
    exact absurd hs (List.not_mem_nil s)
  · rw [hcells] at hmatch
    have hall : ∀ t ∈ rest, t.glyph.type = s0.glyph.type := by
      intro t ht
      exact of_decide_eq_true ((List.all_eq_true.1 hmatch) t ht)
    have hany : ∀ t ∈ s0 :: rest, t.glyph.type = s0.glyph.type := by
      intro t ht
      rcases List.mem_cons.1 ht with rfl | ht'
      · rfl
      · exact hall t ht'
    intro s hs t ht
    rw [hany s hs, hany t ht]

/-- Summing a constant payout over a symbol list. -/
lemma sum_map_const_payout (l : List GlyphInstance) (v : ℚ)
    (h : ∀ s ∈ l, s.glyph.payoutValue = v) :
    (l.map fun s => s.glyph.payoutValue).sum = l.length * v := by
  induction l with
  | nil => simp
  | cons a tl ih =>
      have ha : a.glyph.payoutValue = v := h a (List.mem_cons_self a tl)
      have htl : ∀ s ∈ tl, s.glyph.payoutValue = v := fun s hs => h s (List.mem_cons_of_mem a hs)
      simp [ha, ih htl, add_mul, add_comm]

/-- Lemma: `Rat.floor` agrees with the floor of the `FloorRing` instance on `ℚ`. -/
lemma ratFloor_eq_intFloor (q : ℚ) : Rat.floor q = ⌊q⌋ := rfl

/-- The board used as concrete input for the payout-formula claims: one
row of three cherries (`payoutValue = 1`); the only detected win is the
`3 Across` pattern (`multiplier = 1`). -/
def C1board : List (List GlyphInstance) :=
  [[createGlyphInstance cherryGlyph 0 0, createGlyphInstance cherryGlyph 0 1,
    createGlyphInstance cherryGlyph 0 2]]

/-- C1, counterexample: on a one-row board of three cherries, the single
detected win has `totalValue = 1` — the floor of the mean payout (1)
times the pattern multiplier (1) — while the claimed formula, the sum
over matched cells of `payoutValue × multiplier`, gives `3`. -/
theorem C1_totalValue_counterexample :
    (detectWins WINNING_PATTERNS C1board).map (fun w => w.totalValue) = [1] ∧
    (detectWins WINNING_PATTERNS C1board).map
      (fun w => (w.symbols.map fun s => s.glyph.payoutValue * w.multiplier).sum) = [3] ∧
    (1 : ℚ) ≠ 3 := by
  refine ⟨by with_unfolding_all rfl, by with_unfolding_all rfl, by norm_num⟩

/-- C1, amended: every win produced by `detectWins` has
`baseValue = ⌊mean payoutValue over matched cells⌋` and
`totalValue = baseValue × pattern multiplier` (not the per-cell sum);
all matched cells share one glyph type, and whenever they share one
integer payout value `v`, `totalValue = v × multiplier`. -/
theorem C1_totalValue_amended (patterns : List WinningPattern)
    (board : List (List GlyphInstance)) (w : Win)
    (hw : w ∈ detectWins patterns board) :
    w.baseValue =
      ((Rat.floor ((w.symbols.map fun s => s.glyph.payoutValue).sum /
        (w.symbols.length : ℚ)) : ℤ) : ℚ) ∧
    w.totalValue = w.baseValue * w.multiplier ∧
    (∀ s ∈ w.symbols, ∀ t ∈ w.symbols, s.glyph.type = t.glyph.type) ∧
    (∀ v : ℤ, w.symbols ≠ [] → (∀ s ∈ w.symbols, s.glyph.payoutValue = (v : ℚ)) →
      w.totalValue = (v : ℚ) * w.multiplier) := by
  rcases List.mem_map.1 hw with ⟨c, hc, rfl⟩
  rcases List.mem_flatMap.1 hc with ⟨p, -, hcp⟩
  rcases List.mem_map.1 hcp with ⟨syms, hsyms, rfl⟩
  refine ⟨rfl, rfl, checkSymbolsMatch_same_type hsyms, ?_⟩
  intro v hne hv
  have hsum := sum_map_const_payout syms (v : ℚ) hv
  have hlen : (syms.length : ℚ) ≠ 0 :=
    Nat.cast_ne_zero.mpr (List.length_pos.2 hne).ne'
  simp only [hsum]
  rw [mul_comm (syms.length : ℚ) (v : ℚ), mul_div_assoc, div_self hlen, mul_one,
    ratFloor_eq_intFloor, Int.floor_intCast]

/-- C1, witness for the amended claim at the three-cherry board. -/
theorem C1_totalValue_witness :
    (⟨[createGlyphInstance cherryGlyph 0 0, createGlyphInstance cherryGlyph 0 1,
       createGlyphInstance cherryGlyph 0 2], .threeAcross, 1, 1, 1⟩ : Win) ∈
      detectWins WINNING_PATTERNS C1board ∧
    (⟨[createGlyphInstance cherryGlyph 0 0, createGlyphInstance cherryGlyph 0 1,
       createGlyphInstance cherryGlyph 0 2], .threeAcross, 1, 1, 1⟩ : Win).totalValue =
      (1 : ℚ) * 1 := by
  have hmem :
      (⟨[createGlyphInstance cherryGlyph 0 0, createGlyphInstance cherryGlyph 0 1,
         createGlyphInstance cherryGlyph 0 2], .threeAcross, 1, 1, 1⟩ : Win) ∈
        detectWins WINNING_PATTERNS C1board := by
    with_unfolding_all decide
  have h := (C1_totalValue_amended WINNING_PATTERNS C1board _ hmem).2.2.2
  refine ⟨hmem, ?_⟩
  exact h 1 (by decide) (by decide)

/-! ## Lemmas about the weighted sampler -/

/-- Unfolding of `totalWeightOf` over a cons cell. -/
lemma totalWeightOf_cons (g : Glyph) (l : List Glyph) :
    totalWeightOf (g :: l) = g.rarityWeight + totalWeightOf l := by
  simp [totalWeightOf]

/-- The accumulating walk, characterised: starting from running sum `acc`,
if the draw does not exceed `acc` plus the remaining total weight, the
walk stops at the first entry whose prefix sum reaches the draw. -/
lemma pickGlyph_spec (catalog : List Glyph) :
    ∀ acc draw : ℚ, catalog ≠ [] → draw ≤ acc + totalWeightOf catalog →
    ∃ i, ∃ h : i < catalog.length,
      pickGlyph draw acc catalog = some (catalog.get ⟨i, h⟩) ∧
      draw ≤ acc + totalWeightOf (catalog.take (i + 1)) ∧
      ∀ j < i, acc + totalWeightOf (catalog.take (j + 1)) < draw := by
  induction catalog with
  | nil => intro acc draw hne _; exact absurd rfl hne
  | cons g rest ih =>
      intro acc draw _ hbound
      by_cases hg : draw ≤ acc + g.rarityWeight
      · refine ⟨0, Nat.succ_pos _, ?_, ?_, ?_⟩
        · simp [pickGlyph, hg]
        · simpa [totalWeightOf_cons, totalWeightOf] using hg
        · intro j hj; exact absurd hj (Nat.not_lt_zero j)
      · push_neg at hg
        have hrest : rest ≠ [] := by
          rintro rfl
          rw [totalWeightOf_cons] at hbound
          simp only [totalWeightOf, List.map_nil, List.sum_nil, add_zero] at hbound
          exact absurd hbound (not_le.mpr (by rw [← add_zero (acc + g.rarityWeight)] at hg ⊢; linarith))
        have hbound' : draw ≤ (acc + g.rarityWeight) + totalWeightOf rest := by
          rw [totalWeightOf_cons] at hbound; linarith
        rcases ih (acc + g.rarityWeight) draw hrest hbound' with ⟨i, hi, heq, hle, hlt⟩
        refine ⟨i + 1, Nat.succ_lt_succ hi, ?_, ?_, ?_⟩
        · simpa [pickGlyph, not_le.mpr hg] using heq
        · rw [List.take_succ_cons, totalWeightOf_cons]; linarith
        · intro j hj
          match j, hj with
          | 0, _ => simpa [totalWeightOf_cons, totalWeightOf] using hg
          | j' + 1, hj' =>
              have := hlt j' (Nat.lt_of_succ_lt_succ hj')
              rw [List.take_succ_cons, totalWeightOf_cons]; linarith

/-- C4, amended: whenever the accumulating walk and the total weight that
bounds the draw range over the same catalog entries — as in
`core/glyphs.ts`, where both use `GLYPHS_ARRAY`, and as in the manager's
sampler only while its weights still equal the base table — every draw in
`[0, totalWeight)` returns the first glyph whose running weight sum
reaches the draw, and the fallback branch is never taken.  (In
`_GlyphManager.getRandomGlyph` the bound ranges over the manager's mutable
catalog while the walk ranges over the static base array, so after a
weight mutation the two catalogs differ and this no longer applies; see
the counterexample.) -/
theorem C4_sampler_amended (catalog : List Glyph) (draw : ℚ)
    (h0 : 0 ≤ draw) (hlt : draw < totalWeightOf catalog) :
    ∃ i, ∃ h : i < catalog.length,
      getRandomGlyphWalk catalog draw = some (catalog.get ⟨i, h⟩) ∧
      draw ≤ totalWeightOf (catalog.take (i + 1)) ∧
      ∀ j < i, totalWeightOf (catalog.take (j + 1)) < draw := by
  have hne : catalog ≠ [] := by
    rintro rfl
    simp only [totalWeightOf, List.map_nil, List.sum_nil] at hlt
    exact absurd (lt_of_le_of_lt h0 hlt) (lt_irrefl 0)
  rcases pickGlyph_spec catalog 0 draw hne (by linarith) with ⟨i, hi, heq, hle, hltj⟩
  refine ⟨i, hi, ?_, ?_, ?_⟩
  · simp [getRandomGlyphWalk, heq]
  · simpa using hle
  · intro j hj; simpa using hltj j hj

/-- C4, witness for the amended claim: the core sampler at draw `10`
(catalog total weight 38). -/
theorem C4_sampler_witness :
    (0 : ℚ) ≤ 10 ∧ (10 : ℚ) < totalWeightOf GLYPHS_ARRAY ∧
    (∃ i, ∃ h : i < GLYPHS_ARRAY.length,
      getRandomGlyphWalk GLYPHS_ARRAY 10 = some (GLYPHS_ARRAY.get ⟨i, h⟩) ∧
      (10 : ℚ) ≤ totalWeightOf (GLYPHS_ARRAY.take (i + 1)) ∧
      ∀ j < i, totalWeightOf (GLYPHS_ARRAY.take (j + 1)) < 10) :=
  ⟨by norm_num,
   by with_unfolding_all decide,
   C4_sampler_amended GLYPHS_ARRAY 10 (by norm_num) (by with_unfolding_all decide)⟩

/-- The manager's catalog after `incGlyphWeight(PINEAPPLE, 1000)`:
pineapple's weight becomes `1013`, every other entry keeps its base
values.  Total weight `1112`. -/
def mgrMutated : List Glyph :=
  [⟨.pineapple, "pineapple", 15, 1013⟩, grapeBase, strawberryBase, watermelonBase,
   orangeBase, lemonBase, cherryBase]

/-- C4, counterexample: after the pineapple weight mutation, the draw
`r = 1/2` gives `randomValue = 556 ∈ [0, 1112)`, and
`_GlyphManager.getRandomGlyph` returns the base cherry via the fallback —
the walked static prefix sums stop at `112 < 556` — while the first glyph
of the manager's own catalog whose running sum reaches `556` is its
pineapple entry. -/
theorem C4_sampler_counterexample :
    mgrGetRandomGlyph mgrMutated (1 / 2) = some cherryBase ∧
    specFirstGlyph mgrMutated ((1 / 2) * totalWeightOf mgrMutated) =
      some (⟨.pineapple, "pineapple", 15, 1013⟩ : Glyph) ∧
    (0 : ℚ) ≤ (1 / 2) * totalWeightOf mgrMutated ∧
    (1 / 2) * totalWeightOf mgrMutated < totalWeightOf mgrMutated ∧
    some cherryBase ≠ some (⟨.pineapple, "pineapple", 15, 1013⟩ : Glyph) := by
  refine ⟨by with_unfolding_all rfl, by with_unfolding_all rfl,
    by with_unfolding_all decide, by with_unfolding_all decide,
    by with_unfolding_all decide⟩

/-! ## Lemmas about the board generator -/

/-- The retry loop either returns a board passing the acceptance test or
falls through to the final unconditional `genBoard` call, whose stream
position lies `fuel` whole boards past the loop's start. -/
lemma generateRandomBoardAux_cases (patterns : List WinningPattern)
    (rows cols : Nat) (minMultiplier : ℚ) (minWinCount : Nat) (rand : Nat → ℚ) :
    ∀ fuel k,
      boardAccepted patterns minMultiplier minWinCount
        (generateRandomBoardAux patterns rows cols minMultiplier minWinCount rand k fuel)
        = true ∨
      generateRandomBoardAux patterns rows cols minMultiplier minWinCount rand k fuel =
        genBoard rows cols rand (k + fuel * (rows * cols)) := by
  intro fuel
  induction fuel with
  | zero => intro k; right; simp [generateRandomBoardAux]
  | succ n ih =>
      intro k
      by_cases hacc :
          boardAccepted patterns minMultiplier minWinCount (genBoard rows cols rand k) = true
      · left
        simp [generateRandomBoardAux, hacc]
      · have hstep :
            generateRandomBoardAux patterns rows cols minMultiplier minWinCount rand k (n + 1) =
            generateRandomBoardAux patterns rows cols minMultiplier minWinCount rand
              (k + rows * cols) n := by
          simp [generateRandomBoardAux, hacc]
        rcases ih (k + rows * cols) with h | h
        · left; rw [hstep]; exact h
        · right
          rw [hstep, h]
          congr 1
          ring


/-- When every attempt is rejected, the loop body never returns: the loop
runs its full budget and falls through to the final `genBoard` call. -/
lemma generateRandomBoardAux_exhausted (patterns : List WinningPattern)
    (rows cols : Nat) (minMultiplier : ℚ) (minWinCount : Nat) (rand : Nat → ℚ) :
    ∀ fuel k,
      (∀ i < fuel,
        boardAccepted patterns minMultiplier minWinCount
          (genBoard rows cols rand (k + i * (rows * cols))) = false) →
      generateRandomBoardAux patterns rows cols minMultiplier minWinCount rand k fuel =
        genBoard rows cols rand (k + fuel * (rows * cols)) := by
  intro fuel
  induction fuel with
  | zero => intro k _; simp [generateRandomBoardAux]
  | succ n ih =>
      intro k hrej
      have h0 : boardAccepted patterns minMultiplier minWinCount
          (genBoard rows cols rand k) = false := by
        have := hrej 0 (Nat.succ_pos n)
        simpa using this
      have hrest : ∀ i < n,
          boardAccepted patterns minMultiplier minWinCount
            (genBoard rows cols rand (k + rows * cols + i * (rows * cols))) = false := by
        intro i hi
        have := hrej (i + 1) (Nat.succ_lt_succ hi)
        have harith : k + (i + 1) * (rows * cols) = k + rows * cols + i * (rows * cols) := by
          ring
        rwa [harith] at this
      have hstep :
          generateRandomBoardAux patterns rows cols minMultiplier minWinCount rand k (n + 1) =
          generateRandomBoardAux patterns rows cols minMultiplier minWinCount rand
            (k + rows * cols) n := by
        simp [generateRandomBoardAux, h0]
      rw [hstep, ih (k + rows * cols) hrest]
      congr 1
      ring

/-- C2, amended: `generateRandomBoard` is a total function (the model is a
terminating structural recursion on the retry budget, mirroring the
source's bounded `for` loop with no throw sites), and when all
`MAX_RETRIES` attempts fail the acceptance test it returns one further
freshly generated board — the `return genBoard(rows, cols)` after the
loop, drawn from the stream position just past the 1000 candidates — not
the last candidate itself. -/
theorem C2_exhaustion_amended (patterns : List WinningPattern) (rows cols : Nat)
    (minMultiplier : ℚ) (minWinCount : Nat) (rand : Nat → ℚ)
    (hrej : ∀ i < MAX_RETRIES,
      boardAccepted patterns minMultiplier minWinCount
        (genBoard rows cols rand (i * (rows * cols))) = false) :
    generateRandomBoard patterns rows cols minMultiplier minWinCount rand =
      genBoard rows cols rand (MAX_RETRIES * (rows * cols)) := by
  have h := generateRandomBoardAux_exhausted patterns rows cols minMultiplier minWinCount rand
    MAX_RETRIES 0 (by intro i hi; simpa using hrej i hi)
  simpa [generateRandomBoard] using h

/-- The adversarial stream for the exhaustion claims: every one of the
1000 loop draws is `0` (yielding a pineapple on the `core/glyphs.ts`
catalog), while the post-loop draw is `1/2` (yielding an orange). -/
def C2rand : Nat → ℚ := fun k => if k < 1000 then 0 else 1 / 2

/-- No pattern mask fits a 1 × 1 board, so it yields no wins; with
`minWinCount = 1` the acceptance test therefore always fails. -/
lemma boardAccepted_one_cell (s : GlyphInstance) :
    boardAccepted WINNING_PATTERNS 0 1 [[s]] = false := rfl

/-- A 1 × 1 attempt of `genBoard` is the single sampled cell. -/
lemma genBoard_one_cell (rand : Nat → ℚ) (k : Nat) :
    genBoard 1 1 rand k = [[createGlyphInstance (getRandomGlyph (rand (k + 0))) 0 0]] := rfl

/-- C2, counterexample: with `rows = cols = 1`, `minWinCount = 1` every
attempt is rejected (a 1 × 1 board has no wins), yet the returned board is
the orange drawn at stream position 1000 — a fresh 1001st board — while
the last generated candidate (attempt 999) is a pineapple. -/
theorem C2_exhaustion_counterexample :
    ((List.range MAX_RETRIES).all fun i =>
      !(boardAccepted WINNING_PATTERNS 0 1 (genBoard 1 1 C2rand (i * (1 * 1))))) = true ∧
    generateRandomBoard WINNING_PATTERNS 1 1 0 1 C2rand =
      [[createGlyphInstance orangeGlyph 0 0]] ∧
    genBoard 1 1 C2rand (999 * (1 * 1)) = [[createGlyphInstance pineappleGlyph 0 0]] ∧
    [[createGlyphInstance orangeGlyph 0 0]] ≠ [[createGlyphInstance pineappleGlyph 0 0]] := by
  have hrej : ∀ i, boardAccepted WINNING_PATTERNS 0 1 (genBoard 1 1 C2rand (i * (1 * 1))) = false := by
    intro i
    rw [genBoard_one_cell]
    exact boardAccepted_one_cell _
  refine ⟨?_, ?_, by with_unfolding_all rfl, by with_unfolding_all decide⟩
  · exact List.all_eq_true.2 fun i _ => by rw [hrej i]; rfl
  · rw [show generateRandomBoard WINNING_PATTERNS 1 1 0 1 C2rand =
        genBoard 1 1 C2rand (MAX_RETRIES * (1 * 1)) from
      generateRandomBoardAux_exhausted WINNING_PATTERNS 1 1 0 1 C2rand MAX_RETRIES 0
        (fun i _ => by simpa using hrej i)]
    with_unfolding_all rfl

/-- C2, witness for the amended claim: the adversarial 1 × 1 instance
satisfies the all-attempts-rejected hypothesis, and the theorem pins the
result to the post-loop `genBoard` call. -/
theorem C2_exhaustion_witness :
    generateRandomBoard WINNING_PATTERNS 1 1 0 1 C2rand =
      genBoard 1 1 C2rand (MAX_RETRIES * (1 * 1)) :=
  C2_exhaustion_amended WINNING_PATTERNS 1 1 0 1 C2rand
    (fun i _ => by
      rw [genBoard_one_cell]
      exact boardAccepted_one_cell _)

/-- C3, confirmed: any board `generateRandomBoard` returns other than the
post-loop fallback passed the acceptance test, i.e. the minimum win
multiplier (`⊤` when there are no wins) is at least `minMultiplier` and
the win count is at least `minWinCount`; the second conjunct unfolds the
acceptance test into exactly those two thresholds. -/
theorem C3_accepted_thresholds (patterns : List WinningPattern) (rows cols : Nat)
    (minMultiplier : ℚ) (minWinCount : Nat) (rand : Nat → ℚ) :
    (boardAccepted patterns minMultiplier minWinCount
        (generateRandomBoard patterns rows cols minMultiplier minWinCount rand) = true ∨
      generateRandomBoard patterns rows cols minMultiplier minWinCount rand =
        genBoard rows cols rand (MAX_RETRIES * (rows * cols))) ∧
    (∀ b : List (List GlyphInstance),
      boardAccepted patterns minMultiplier minWinCount b = true ↔
        ((minMultiplier : WithTop ℚ) ≤ lowestMultiplier (detectWins patterns b) ∧
          minWinCount ≤ (detectWins patterns b).length)) := by
  constructor
  · have h := generateRandomBoardAux_cases patterns rows cols minMultiplier minWinCount rand
      MAX_RETRIES 0
    rcases h with h | h
    · left; exact h
    · right; simpa [generateRandomBoard] using h
  · intro b
    simp [boardAccepted]

/-! ## Lemmas about the detector's in-place marking -/

/-- Function `markWin` raises the multiplier to the maximum of the current value
and the pattern's, and touches nothing else besides `isWinning`. -/
lemma markWin_fields (s : GlyphInstance) (m : ℚ) :
    (markWin s m).glyph = s.glyph ∧ (markWin s m).row = s.row ∧
    (markWin s m).column = s.column ∧ (markWin s m).isWinning = true ∧
    (markWin s m).winningMultiplier = max s.winningMultiplier m := by
  refine ⟨rfl, rfl, rfl, rfl, ?_⟩
  simp only [markWin]
  rcases le_or_lt m s.winningMultiplier with h | h
  · rw [if_neg (not_lt.mpr h), max_eq_left h]
  · rw [if_pos h, max_eq_right h.le]

/-- An iterated `max` never falls below its starting point. -/
lemma le_foldl_max (ms : List ℚ) : ∀ a b : ℚ, a ≤ b → a ≤ ms.foldl max b := by
  induction ms with
  | nil => intro a b h; simpa using h
  | cons m tl ih => intro a b h; exact ih a (max b m) (le_trans h (le_max_left b m))

/-- An iterated `max` is the starting point or one of the folded values —
never a sum. -/
lemma foldl_max_mem (ms : List ℚ) : ∀ a : ℚ, ms.foldl max a = a ∨ ms.foldl max a ∈ ms := by
  induction ms with
  | nil => intro a; left; rfl
  | cons m tl ih =>
      intro a
      rcases ih (max a m) with h | h
      · rcases max_choice a m with hm | hm
        · left; simp only [List.foldl_cons]; rw [h, hm]
        · right; simp only [List.foldl_cons]; rw [h, hm]; exact List.mem_cons_self m tl
      · right; exact List.mem_cons_of_mem m h

/-- Folding the marking list over a positional board view: each cell's
final state keeps its glyph and coordinates; its `isWinning` flag is the
old flag or-ed with “some update targets this cell”; its multiplier is the
iterated `max` of the targeting updates' multipliers over its old value. -/
lemma applyUpdates_spec (L : List ((Nat × Nat) × ℚ)) :
    ∀ (g : Nat × Nat → GlyphInstance) (q : Nat × Nat),
      (applyUpdates L g q).glyph = (g q).glyph ∧
      (applyUpdates L g q).row = (g q).row ∧
      (applyUpdates L g q).column = (g q).column ∧
      (applyUpdates L g q).isWinning =
        ((g q).isWinning || L.any fun u => decide (u.1 = q)) ∧
      (applyUpdates L g q).winningMultiplier =
        ((L.filter fun u => decide (u.1 = q)).map fun u => u.2).foldl max
          (g q).winningMultiplier := by
  induction L with
  | nil => intro g q; refine ⟨rfl, rfl, rfl, by simp [applyUpdates], by simp [applyUpdates]⟩
  | cons u tl ih =>
      intro g q
      have hstep : applyUpdates (u :: tl) g =
          applyUpdates tl (fun q => if u.1 = q then markWin (g q) u.2 else g q) := rfl
      rcases ih (fun q => if u.1 = q then markWin (g q) u.2 else g q) q with
        ⟨hg, hr, hc, hw, hm⟩
      by_cases hq : u.1 = q
      · rcases markWin_fields (g q) u.2 with ⟨mg, mr, mc, mw, mm⟩
        refine ⟨?_, ?_, ?_, ?_, ?_⟩
        · rw [hstep, hg, if_pos hq, mg]
        · rw [hstep, hr, if_pos hq, mr]
        · rw [hstep, hc, if_pos hq, mc]
        · rw [hstep, hw, if_pos hq, mw]
          simp [hq]
        · rw [hstep, hm]
          simp only [if_pos hq, mm]
          simp [List.filter_cons, hq]
      · refine ⟨?_, ?_, ?_, ?_, ?_⟩
        · rw [hstep, hg, if_neg hq]
        · rw [hstep, hr, if_neg hq]
        · rw [hstep, hc, if_neg hq]
        · rw [hstep, hw, if_neg hq]
          simp [hq]
        · rw [hstep, hm]
          simp only [if_neg hq]
          simp [List.filter_cons, hq]

/-- C5, confirmed: after `detectWinningCombinations` runs, every cell the
matched patterns cover has `isWinning = true` (and no unmatched cell's
flag was turned on); its multiplier is the iterated `max` of the matching
patterns' multipliers over its previous value — so it is never lowered and
overlapping matches never sum: the final multiplier is the previous value
or one single pattern multiplier; and `createGlyphInstance` starts every
fresh cell at `winningMultiplier = 1`. -/
theorem C5_detector_marking (patterns : List WinningPattern)
    (board : List (List GlyphInstance)) (q : Nat × Nat) (g : Glyph) (r c : Nat) :
    ((detectFinalCells patterns board q).isWinning =
      ((cellAt board q).isWinning ||
        (allUpdates patterns board).any fun u => decide (u.1 = q))) ∧
    ((detectFinalCells patterns board q).winningMultiplier =
      (((allUpdates patterns board).filter fun u => decide (u.1 = q)).map fun u => u.2).foldl
        max (cellAt board q).winningMultiplier) ∧
    (cellAt board q).winningMultiplier ≤ (detectFinalCells patterns board q).winningMultiplier ∧
    ((detectFinalCells patterns board q).winningMultiplier =
        (cellAt board q).winningMultiplier ∨
      (detectFinalCells patterns board q).winningMultiplier ∈
        ((allUpdates patterns board).filter fun u => decide (u.1 = q)).map fun u => u.2) ∧
    (createGlyphInstance g r c).winningMultiplier = 1 := by
  rcases applyUpdates_spec (allUpdates patterns board) (cellAt board) q with
    ⟨-, -, -, hw, hm⟩
  refine ⟨hw, hm, ?_, ?_, rfl⟩
  · unfold detectFinalCells
    rw [hm]
    exact le_foldl_max _ _ _ le_rfl
  · unfold detectFinalCells
    rw [hm]
    exact foldl_max_mem _ _

/-! ## Oversized pattern masks -/

/-- C6, confirmed: on a rectangular `rows × cols` board, a pattern whose
mask is taller than `rows` or wider than `cols` produces zero window
origins, zero windows, zero matches, zero combinations and zero wins —
the enumeration bounds collapse instead of faulting. -/
theorem C6_oversized_mask (board : List (List GlyphInstance)) (cols : Nat)
    (p : WinningPattern)
    (hrect : ∀ row ∈ board, row.length = cols)
    (hbig : board.length < p.mask.length ∨ cols < (p.mask.getD 0 []).length) :
    windowOrigins board p.mask.length ((p.mask.getD 0 []).length) = [] ∧
    sliceArray board p.mask.length ((p.mask.getD 0 []).length) = [] ∧
    checkSymbolsMatch board p.mask = [] ∧
    detectWinningCombinations [p] board = [] ∧
    detectWins [p] board = [] := by
  have horig : windowOrigins board p.mask.length ((p.mask.getD 0 []).length) = [] := by
    rcases hbig with hh | hw
    · have : board.length + 1 - p.mask.length = 0 := by omega
      simp [windowOrigins, this]
    · have hmaskpos : 1 ≤ p.mask.length := by
        rcases hml : p.mask with - | ⟨m0, rest⟩
        · rw [hml] at hw
          simp at hw
        · simp
      apply List.flatMap_eq_nil_iff.mpr
      intro i hi
      have hilt : i < board.length := by
        have := List.mem_range.mp hi
        omega
      have hrow : (board.getD i []).length = cols := by
        have hget : board.getD i [] = board[i] := List.getD_eq_getElem board [] hilt
        rw [hget]
        exact hrect _ (List.getElem_mem hilt)
      have h0 : (board.getD i []).length + 1 - (p.mask.getD 0 []).length = 0 := by
        rw [hrow]; omega
      simp only [h0, List.range_zero, List.map_nil]
  have hslice : sliceArray board p.mask.length ((p.mask.getD 0 []).length) = [] := by
    unfold sliceArray
    rw [horig]
    rfl
  have hcheck : checkSymbolsMatch board p.mask = [] := by
    unfold checkSymbolsMatch
    rw [hslice]
    rfl
  have hcomb : detectWinningCombinations [p] board = [] := by
    unfold detectWinningCombinations
    simp only [List.flatMap_cons, List.flatMap_nil, List.append_nil]
    rw [hcheck]
    rfl
  refine ⟨horig, hslice, hcheck, hcomb, ?_⟩
  unfold detectWins
  rw [hcomb]
  rfl

/-- C6, witness: the 3 × 3 star mask on a 1 × 1 board. -/
theorem C6_oversized_mask_witness :
    checkSymbolsMatch [[createGlyphInstance cherryGlyph 0 0]]
      [[1, 0, 1], [0, 1, 0], [1, 0, 1]] = [] ∧
    detectWins [⟨.fiveMirroredDiagonal, "diagonal", "Star Diagonal", 3,
      [[1, 0, 1], [0, 1, 0], [1, 0, 1]]⟩] [[createGlyphInstance cherryGlyph 0 0]] = [] := by
  have h := C6_oversized_mask [[createGlyphInstance cherryGlyph 0 0]] 1
    ⟨.fiveMirroredDiagonal, "diagonal", "Star Diagonal", 3,
      [[1, 0, 1], [0, 1, 0], [1, 0, 1]]⟩
    (by intro row hrow; simp at hrow; simp [hrow])
    (by left; decide)
  exact ⟨h.2.2.1, h.2.2.2.2⟩

/-! ## The spin state machine claims -/

/-- C7, confirmed (the spin cost is the hardcoded `1` of
`startSpin`/`deductCoins(1)`): `startSpin` leaves the state untouched
unless `canSpin` holds, the machine is `IDLE` and the balance covers the
cost; when the guard holds it debits the cost, adds exactly one to
`totalSpins`, clears `canSpin` and moves to `SPINNING`. -/
theorem C7_startSpin_guard (s : GameState) :
    (¬(s.canSpin = true ∧ s.currentState = .idle ∧ 1 ≤ s.playerStats.coins) →
      startSpin s = s) ∧
    (s.canSpin = true → s.currentState = .idle → 1 ≤ s.playerStats.coins →
      startSpin s =
        { s with
          currentState := .spinning,
          playerStats :=
            { s.playerStats with
              coins := s.playerStats.coins - 1,
              totalSpins := s.playerStats.totalSpins + 1 },
          canSpin := false,
          currentSpinResult := none }) := by
  constructor
  · intro h
    unfold startSpin
    by_cases h1 : s.canSpin = false ∨ s.currentState ≠ .idle
    · rw [if_pos h1]
    · rw [if_neg h1]
      push_neg at h1
      have hcs : s.canSpin = true := by
        rcases h1 with ⟨h1a, -⟩
        cases hb : s.canSpin
        · exact absurd hb h1a
        · rfl
      have hcoins : s.playerStats.coins < 1 := by
        by_contra hge
        push_neg at hge
        exact h ⟨hcs, h1.2, hge⟩
      rw [if_pos hcoins]
  · intro hcs hidle hcoins
    unfold startSpin
    rw [if_neg (by simp [hcs, hidle]), if_neg (not_lt.mpr hcoins)]
    unfold deductCoins
    rw [if_neg (by norm_num), if_neg (not_lt.mpr hcoins)]

/-- C7, witness: the guard fires on the default state (bet covered by the
100 starting coins) and the no-op side fires once the machine is
`SPINNING`. -/
theorem C7_startSpin_witness :
    startSpin DEFAULT_GAME_STATE =
      { DEFAULT_GAME_STATE with
        currentState := .spinning,
        playerStats :=
          { DEFAULT_GAME_STATE.playerStats with
            coins := DEFAULT_GAME_STATE.playerStats.coins - 1,
            totalSpins := DEFAULT_GAME_STATE.playerStats.totalSpins + 1 },
        canSpin := false,
        currentSpinResult := none } ∧
    startSpin { DEFAULT_GAME_STATE with currentState := .spinning } =
      { DEFAULT_GAME_STATE with currentState := .spinning } :=
  ⟨(C7_startSpin_guard DEFAULT_GAME_STATE).2 rfl rfl
     (by show (1:ℚ) ≤ 100; norm_num),
   (C7_startSpin_guard { DEFAULT_GAME_STATE with currentState := .spinning }).1
     (by intro h; exact absurd h.2.1 (by decide))⟩

/-- A minimal win value used to build concrete spin results. -/
def dummyWin : Win := ⟨[], .threeAcross, 0, 1, 0⟩

/-- A state sitting mid-spin, as left by a successful `startSpin`. -/
def spinningState : GameState :=
  { DEFAULT_GAME_STATE with currentState := .spinning, canSpin := false }

/-- C8, counterexample: `endSpin` in `SPINNING` with a winning result
whose `totalPayout` is `-5` leaves the balance at 100 — `addCoins`
returns early on non-positive amounts — whereas crediting "exactly
`totalPayout`" would give 95. -/
theorem C8_endSpin_win_counterexample :
    (endSpin spinningState
      ⟨[], [dummyWin], -5, false⟩).state.playerStats.coins = 100 ∧
    (100 : ℚ) ≠ 100 + (-5) := by
  exact ⟨by with_unfolding_all rfl, by norm_num⟩

/-- C8, amended: for a result with wins, `endSpin` in `SPINNING` credits
the balance once by `max totalPayout 0` — exactly `totalPayout` whenever
the payout is positive, nothing otherwise, because `addCoins` ignores
non-positive amounts — increments `totalWins`, raises `largestWin` to
`max(previous, totalPayout)`, records the result, lands in `CELEBRATING`,
prepends to the bounded history, and schedules the 3000 ms callback whose
effect is `IDLE` with `canSpin = true`. -/
theorem C8_endSpin_win_amended (s : GameState) (result : SpinResult)
    (hspin : s.currentState = .spinning) (hwins : result.wins ≠ []) :
    (endSpin s result).state.playerStats.coins =
      s.playerStats.coins + max result.totalPayout 0 ∧
    (0 < result.totalPayout →
      (endSpin s result).state.playerStats.coins =
        s.playerStats.coins + result.totalPayout) ∧
    (endSpin s result).state.playerStats.totalWins = s.playerStats.totalWins + 1 ∧
    (endSpin s result).state.playerStats.largestWin =
      max s.playerStats.largestWin result.totalPayout ∧
    (endSpin s result).state.currentState = .celebrating ∧
    (endSpin s result).state.currentSpinResult = some result ∧
    (endSpin s result).state.recentSpins =
      (result :: s.recentSpins).take MAX_RECENT_SPINS ∧
    (endSpin s result).celebrationDelay = some 3000 ∧
    (celebrationCallback (endSpin s result).state).currentState = .idle ∧
    (celebrationCallback (endSpin s result).state).canSpin = true := by
  have hlen : 0 < result.wins.length := List.length_pos.mpr hwins
  unfold endSpin
  rw [if_neg (by simp [hspin]), if_pos hlen]
  by_cases hp : result.totalPayout ≤ 0
  · have hmax : max result.totalPayout 0 = 0 := max_eq_right hp
    have hnlt : ¬ (0 : ℚ) < result.totalPayout := not_lt.mpr hp
    simp [addCoins, hp, hmax, hnlt, celebrationCallback]
  · have hp' : (0 : ℚ) < result.totalPayout := not_le.mp hp
    have hmax : max result.totalPayout 0 = result.totalPayout := max_eq_left hp'.le
    simp [addCoins, hp, hmax, celebrationCallback]

/-- C8, witness: a winning result paying 30 coins from the mid-spin
state. -/
theorem C8_endSpin_win_witness :
    (endSpin spinningState ⟨[], [dummyWin], 30, false⟩).state.playerStats.coins =
      spinningState.playerStats.coins + max 30 0 ∧
    (endSpin spinningState ⟨[], [dummyWin], 30, false⟩).state.currentState =
      .celebrating ∧
    (endSpin spinningState ⟨[], [dummyWin], 30, false⟩).celebrationDelay = some 3000 := by
  have h := C8_endSpin_win_amended spinningState ⟨[], [dummyWin], 30, false⟩ rfl
    (by simp)
  exact ⟨h.1, h.2.2.2.2.1, h.2.2.2.2.2.2.2.1⟩

/-- C9, confirmed: with an empty win list, `endSpin` in `SPINNING` goes to
`IDLE` with `canSpin = true`, never visits `CELEBRATING` (its `setState`
trace is `EVALUATING`, `IDLE`, `IDLE`), schedules nothing, and leaves the
balance untouched; called in any other state it is a strict no-op. -/
theorem C9_endSpin_no_win (s : GameState) (result : SpinResult) :
    (s.currentState = .spinning → result.wins = [] →
      (endSpin s result).state.currentState = .idle ∧
      (endSpin s result).state.canSpin = true ∧
      (endSpin s result).state.playerStats.coins = s.playerStats.coins ∧
      (endSpin s result).stateTrace =
        [GameStateType.evaluating, GameStateType.idle, GameStateType.idle] ∧
      GameStateType.celebrating ∉ (endSpin s result).stateTrace ∧
      (endSpin s result).celebrationDelay = none) ∧
    (s.currentState ≠ .spinning → endSpin s result = ⟨s, [], none⟩) := by
  constructor
  · intro hspin hempty
    unfold endSpin
    rw [if_neg (by simp [hspin]), if_neg (by simp [hempty])]
    exact ⟨rfl, rfl, rfl, rfl,
      (by decide :
        GameStateType.celebrating ∉
          [GameStateType.evaluating, GameStateType.idle, GameStateType.idle]), rfl⟩
  · intro hnot
    unfold endSpin
    rw [if_pos hnot]

/-- C9, witness: an empty result from the mid-spin state, and a no-op
call from the menu state. -/
theorem C9_endSpin_no_win_witness :
    (endSpin spinningState ⟨[], [], 0, false⟩).state.currentState = .idle ∧
    (endSpin spinningState ⟨[], [], 0, false⟩).state.canSpin = true ∧
    GameStateType.celebrating ∉ (endSpin spinningState ⟨[], [], 0, false⟩).stateTrace ∧
    endSpin { DEFAULT_GAME_STATE with currentState := .menu } ⟨[], [], 0, false⟩ =
      ⟨{ DEFAULT_GAME_STATE with currentState := .menu }, [], none⟩ := by
  have h1 := (C9_endSpin_no_win spinningState ⟨[], [], 0, false⟩).1 rfl rfl
  have h2 := (C9_endSpin_no_win { DEFAULT_GAME_STATE with currentState := .menu }
    ⟨[], [], 0, false⟩).2 (by decide)
  exact ⟨h1.1, h1.2.1, h1.2.2.2.2.1, h2⟩

/-- C10, confirmed: from any state with a non-negative balance, every
public operation preserves non-negativity — `startSpin` only debits when
the balance covers the cost, `endSpin` credits `addCoins`-filtered
amounts, `addCoins` ignores non-positive amounts, `deductCoins` refuses
(returning `false`, state unchanged) whenever the balance is short, and
`resetState` restores the 100-coin default. -/
theorem C10_coins_nonneg (s : GameState) (result : SpinResult) (amount : ℚ)
    (h : 0 ≤ s.playerStats.coins) :
    0 ≤ (startSpin s).playerStats.coins ∧
    (0 ≤ result.totalPayout → 0 ≤ (endSpin s result).state.playerStats.coins) ∧
    0 ≤ (addCoins s amount).playerStats.coins ∧
    0 ≤ (deductCoins s amount).1.playerStats.coins ∧
    (s.playerStats.coins < amount → deductCoins s amount = (s, false)) ∧
    (amount ≤ 0 → addCoins s amount = s) ∧
    0 ≤ resetState.playerStats.coins := by
  have hadd : ∀ t : GameState, ∀ a : ℚ, 0 ≤ t.playerStats.coins →
      0 ≤ (addCoins t a).playerStats.coins := by
    intro t a ht
    unfold addCoins
    by_cases ha : a ≤ 0
    · rw [if_pos ha]; exact ht
    · rw [if_neg ha]; push_neg at ha
      simp only []
      linarith
  have hded : ∀ t : GameState, ∀ a : ℚ, 0 ≤ t.playerStats.coins →
      0 ≤ (deductCoins t a).1.playerStats.coins := by
    intro t a ht
    unfold deductCoins
    by_cases ha : a ≤ 0
    · rw [if_pos ha]; exact ht
    · rw [if_neg ha]
      by_cases hshort : t.playerStats.coins < a
      · rw [if_pos hshort]; exact ht
      · rw [if_neg hshort]; push_neg at hshort
        simp only []
        linarith
  refine ⟨?_, ?_, hadd s amount h, hded s amount h, ?_, ?_,
    by show (0:ℚ) ≤ 100; norm_num⟩
  · unfold startSpin
    by_cases h1 : s.canSpin = false ∨ s.currentState ≠ .idle
    · rw [if_pos h1]; exact h
    · rw [if_neg h1]
      by_cases h2 : s.playerStats.coins < 1
      · rw [if_pos h2]; exact h
      · rw [if_neg h2]
        exact hded s 1 h
  · intro hpay
    unfold endSpin
    by_cases h1 : s.currentState ≠ .spinning
    · rw [if_pos h1]; exact h
    · rw [if_neg h1]
      by_cases h2 : 0 < result.wins.length
      · rw [if_pos h2]
        exact hadd _ result.totalPayout h
      · rw [if_neg h2]; exact h
  · intro hshort
    have ha : ¬ amount ≤ 0 := by
      push_neg
      exact lt_of_le_of_lt h hshort
    unfold deductCoins
    rw [if_neg ha, if_pos hshort]
  · intro ha
    unfold addCoins
    rw [if_pos ha]

/-- C10, witness: the default state, a 30-coin result and a 5-coin
amount. -/
theorem C10_coins_nonneg_witness :
    0 ≤ (startSpin DEFAULT_GAME_STATE).playerStats.coins ∧
    0 ≤ (addCoins DEFAULT_GAME_STATE 5).playerStats.coins ∧
    0 ≤ (deductCoins DEFAULT_GAME_STATE 5).1.playerStats.coins ∧
    0 ≤ resetState.playerStats.coins := by
  have h := C10_coins_nonneg DEFAULT_GAME_STATE ⟨[], [dummyWin], 30, false⟩ 5
    (by show (0:ℚ) ≤ 100; norm_num)
  exact ⟨h.1, h.2.2.1, h.2.2.2.1, h.2.2.2.2.2.2⟩

end SlotMac
